import Mathlib

/-
Verification of the Rig process-bridge and session-orchestration layer.

The definitions below are a shallow embedding of the TypeScript sources:

* `PiBridge`  — the line-JSON process channel of `server/src/pi-bridge.ts`
  (`sendCommand`, the `rl.on("line")` handler, the timeout callback and the
  `child.on("exit")` handler), modelled as a step function on the channel
  state together with an observable output per step.
* `Routes`    — the per-bridge event buffer / WebSocket fan-out of
  `server/src/routes.ts` (`registerSession`'s event handler, the
  `GET /api/ws/:bridgeId` attach handler and the socket close handler),
  and the `POST /api/resume` handler.
* `RigTools`  — the dispatch-deduplication logic of
  `operator/extensions/rig-tools.ts` (`rig_dispatch`'s execute).
* `Operator`  — the `SessionManager` of the operator (`sendMessage`'s
  promise queue, `runTurn`'s event handling and timeout, `reapIdle`).

JavaScript machine integers (request counters, timestamps in milliseconds)
are modelled as `Nat`; they stay far below 2^53 so no overflow arises.
JS `Map` objects are modelled as association lists in insertion order
(`JsMap` below), matching `Map.prototype.get/set/delete`.
-/

namespace JsMap

/-- Lookup in a JS `Map` modelled as an association list (first match). -/
def get [BEq α] (m : List (α × β)) (k : α) : Option β :=
  match m with
  | [] => none
  | p :: rest => if p.1 == k then some p.2 else get rest k

/-- JS `Map.prototype.set`: replace the entry in place if the key is present,
append at the end otherwise. -/
def set [BEq α] (m : List (α × β)) (k : α) (v : β) : List (α × β) :=
  match m with
  | [] => [(k, v)]
  | p :: rest => if p.1 == k then (k, v) :: rest else p :: set rest k v

/-- JS `Map.prototype.delete`: drop every entry with the given key. -/
def del [BEq α] (m : List (α × β)) (k : α) : List (α × β) :=
  m.filter (fun p => !(p.1 == k))

theorem get_set_self [BEq α] [LawfulBEq α] (m : List (α × β)) (k : α) (v : β) :
    get (set m k v) k = some v := by
  induction m with
  | nil => simp [get, set]
  | cons p rest ih =>
    by_cases h : p.1 == k
    · simp [set, h, get]
    · simp [set, h, get, ih]

theorem get_set_ne [BEq α] [LawfulBEq α] (m : List (α × β)) (k k' : α) (v : β)
    (h : k' ≠ k) : get (set m k v) k' = get m k' := by
  induction m with
  | nil =>
    have : ¬(k == k') := by
      simp only [beq_iff_eq]
      exact fun hk => h hk.symm
    simp [get, set, this]
  | cons p rest ih =>
    by_cases hp : p.1 == k
    · have hk : ¬(k == k') := by
        simp only [beq_iff_eq]
        exact fun hk => h hk.symm
      have hp' : p.1 = k := by simpa using hp
      have : ¬(p.1 == k') := by
        simp only [beq_iff_eq, hp']
        exact fun hk => h hk.symm
      simp [set, hp, get, hk, this]
    · simp only [set, hp, if_neg]
      by_cases hq : p.1 == k'
      · simp [get, hq]
      · simp [get, hq, ih]

theorem get_del_self [BEq α] [LawfulBEq α] (m : List (α × β)) (k : α) :
    get (del m k) k = none := by
  induction m with
  | nil => simp [get, del]
  | cons p rest ih =>
    by_cases h : p.1 == k
    · simpa [del, h] using ih
    · simp only [del, List.filter_cons] at ih ⊢
      simp [h, get, ih]

theorem get_del_ne [BEq α] [LawfulBEq α] (m : List (α × β)) (k k' : α)
    (h : k' ≠ k) : get (del m k) k' = get m k' := by
  induction m with
  | nil => simp [get, del]
  | cons p rest ih =>
    by_cases hp : p.1 == k
    · have hp' : p.1 = k := by simpa using hp
      have : ¬(p.1 == k') := by
        simp only [beq_iff_eq, hp']
        exact fun hk => h hk.symm
      simp only [del, List.filter_cons] at ih ⊢
      simp [hp, get, this, ih]
    · simp only [del, List.filter_cons] at ih ⊢
      by_cases hq : p.1 == k'
      · simp [hp, get, hq]
      · simp [hp, get, hq, ih]

end JsMap

namespace PiBridge

/-- A parsed JSON line read from the pi process's stdout, restricted to the
fields the `rl.on("line")` handler of `spawnPi` inspects: `data.type` and
`data.id`.  Request ids are the strings `req_<n>` produced by `sendCommand`'s
counter; they are modelled by their counter value `n`.  `lid = none` covers a
missing, empty (falsy) or non-request-shaped `id` field, none of which can
ever equal a pending `req_<n>` key. -/
structure JsonLine where
  ltype : String
  lid : Option Nat
  deriving Repr, DecidableEq

/-- A raw stdout line: either it parses as JSON or `JSON.parse` throws. -/
inductive RawLine where
  | json (j : JsonLine)
  | malformed
  deriving Repr, DecidableEq

/-- The mutable state of one `PiProcess` bridge that the command/response
machinery touches: the `alive` flag, the `nextRequestId` counter and the key
set of the `pendingRequests` map (its values are the per-request resolver
closures, which are identified by their key). -/
structure Channel where
  alive : Bool
  nextRequestId : Nat
  pending : List Nat
  deriving Repr, DecidableEq

/-- A freshly spawned channel (`spawnPi`): alive, counter `0`, no pending
requests. -/
def initChannel : Channel :=
  { alive := true, nextRequestId := 0, pending := [] }

/-- One event-loop callback touching the channel:
`send` is a `sendCommand` call, `line` is the readline handler firing on one
stdout line, `timeout r` is the deadline timer of request `r` firing, and
`exit` is the `child.on("exit")` handler. -/
inductive ChanInput where
  | send
  | line (l : RawLine)
  | timeout (r : Nat)
  | exit (code : Int) (signal : Option String)
  deriving Repr, DecidableEq

/-- JS prints `null` for a missing signal. -/
def jsShowSignal : Option String → String
  | some s => s
  | none => "null"

/-- The message of the error every pending request is rejected with when the
process exits: `Pi process exited (code=..., signal=...)`. -/
def exitError (code : Int) (signal : Option String) : String :=
  "Pi process exited (code=" ++ toString code ++ ", signal=" ++ jsShowSignal signal ++ ")"

/-- The observable effect of one step:
`accepted r` — `sendCommand` created the future for fresh request id `r` and
wrote the command line; `rejectedNotAlive` — `sendCommand` on a dead channel
returned an already-rejected promise; `resolved r j` — the future of request
`r` resolved with response line `j`; `event j` — the line was forwarded to
the channel's event stream; `dropped` — a non-JSON line was silently ignored;
`timedOut r` — request `r` was rejected with the timeout error;
`timerNoop` — a timer fired for a request no longer pending (cleared timers
cannot fire; this input is vacuous); `exited err rs` — the exit handler
rejected every request in `rs` with the single error message `err`. -/
inductive ChanOutput where
  | accepted (r : Nat)
  | rejectedNotAlive
  | resolved (r : Nat) (j : JsonLine)
  | event (j : JsonLine)
  | dropped
  | timedOut (r : Nat)
  | timerNoop
  | exited (err : String) (rejected : List Nat)
  deriving Repr, DecidableEq

/-- One step of the channel, translated clause by clause from
`server/src/pi-bridge.ts` (`sendCommand`, the `rl.on("line")` handler, the
timeout callback, and the `child.on("exit")` handler). -/
def step (ch : Channel) : ChanInput → Channel × ChanOutput
  | .send =>
    if ch.alive then
      ({ ch with nextRequestId := ch.nextRequestId + 1,
                 pending := ch.pending ++ [ch.nextRequestId + 1] },
        .accepted (ch.nextRequestId + 1))
    else (ch, .rejectedNotAlive)
  | .line .malformed => (ch, .dropped)
  | .line (.json j) =>
    match j.lid with
    | some r =>
      if j.ltype = "response" ∧ r ∈ ch.pending then
        ({ ch with pending := ch.pending.erase r }, .resolved r j)
      else (ch, .event j)
    | none => (ch, .event j)
  | .timeout r =>
    if r ∈ ch.pending then
      ({ ch with pending := ch.pending.erase r }, .timedOut r)
    else (ch, .timerNoop)
  | .exit code signal =>
    ({ ch with alive := false, pending := [] },
      .exited (exitError code signal) ch.pending)

/-- Run a sequence of event-loop callbacks, collecting the outputs. -/
def run (ch : Channel) : List ChanInput → Channel × List ChanOutput
  | [] => (ch, [])
  | i :: is =>
    let s := step ch i
    let t := run s.1 is
    (t.1, s.2 :: t.2)

/-- Request ids assigned by `sendCommand` calls in an output trace. -/
def acceptedIds : List ChanOutput → List Nat
  | [] => []
  | .accepted r :: os => r :: acceptedIds os
  | _ :: os => acceptedIds os

/-- Request ids removed from the pending map by a matching response, a
timeout, or the exit handler. -/
def removedIds : List ChanOutput → List Nat
  | [] => []
  | .resolved r _ :: os => r :: removedIds os
  | .timedOut r :: os => r :: removedIds os
  | .exited _ rs :: os => rs ++ removedIds os
  | _ :: os => removedIds os

theorem acceptedIds_append (a b : List ChanOutput) :
    acceptedIds (a ++ b) = acceptedIds a ++ acceptedIds b := by
  induction a with
  | nil => simp [acceptedIds]
  | cons o os ih => cases o <;> simp [acceptedIds, ih]

theorem removedIds_append (a b : List ChanOutput) :
    removedIds (a ++ b) = removedIds a ++ removedIds b := by
  induction a with
  | nil => simp [removedIds]
  | cons o os ih => cases o <;> simp [removedIds, ih]

theorem run_append (ch : Channel) (t1 t2 : List ChanInput) :
    run ch (t1 ++ t2) =
      ((run (run ch t1).1 t2).1, (run ch t1).2 ++ (run (run ch t1).1 t2).2) := by
  induction t1 generalizing ch with
  | nil => simp [run]
  | cons i is ih => simp [run, ih]

theorem run_singleton (ch : Channel) (i : ChanInput) :
    run ch [i] = ((step ch i).1, [(step ch i).2]) := by
  simp [run]

/-- Invariant tying the channel state to the observable trace: the pending
key set has no duplicates, every pending or ever-assigned id is bounded by
the counter, the pending keys are exactly the assigned-but-not-yet-removed
ids, and assigned ids are strictly increasing. -/
structure ChanInv (ch : Channel) (os : List ChanOutput) : Prop where
  nodup : ch.pending.Nodup
  pending_le : ∀ r ∈ ch.pending, r ≤ ch.nextRequestId
  mem_iff : ∀ r, r ∈ ch.pending ↔ (r ∈ acceptedIds os ∧ r ∉ removedIds os)
  acc_sorted : (acceptedIds os).Pairwise (· < ·)
  acc_le : ∀ r ∈ acceptedIds os, r ≤ ch.nextRequestId
  rem_le : ∀ r ∈ removedIds os, r ≤ ch.nextRequestId

theorem ChanInv.unchanged {ch : Channel} {os : List ChanOutput} (h : ChanInv ch os)
    (o : ChanOutput) (hacc : acceptedIds [o] = []) (hrem : removedIds [o] = []) :
    ChanInv ch (os ++ [o]) := by
  refine ⟨h.nodup, h.pending_le, ?_, ?_, ?_, ?_⟩
  · intro r
    rw [acceptedIds_append, removedIds_append, hacc, hrem, List.append_nil,
      List.append_nil]
    exact h.mem_iff r
  · rw [acceptedIds_append, hacc, List.append_nil]
    exact h.acc_sorted
  · rw [acceptedIds_append, hacc, List.append_nil]
    exact h.acc_le
  · rw [removedIds_append, hrem, List.append_nil]
    exact h.rem_le

theorem ChanInv.removeOne {ch : Channel} {os : List ChanOutput} (h : ChanInv ch os)
    {r : Nat} (hmem : r ∈ ch.pending) (o : ChanOutput)
    (hacc : acceptedIds [o] = []) (hrem : removedIds [o] = [r]) :
    ChanInv { ch with pending := ch.pending.erase r } (os ++ [o]) := by
  refine ⟨h.nodup.erase r, ?_, ?_, ?_, ?_, ?_⟩
  · intro a haa
    exact h.pending_le a (List.erase_subset _ _ haa)
  · intro a
    rw [acceptedIds_append, removedIds_append, hacc, hrem, List.append_nil]
    show a ∈ ch.pending.erase r ↔ _
    rw [h.nodup.mem_erase_iff, h.mem_iff a]
    constructor
    · rintro ⟨hne, hacc2, hrem2⟩
      refine ⟨hacc2, fun hcon => ?_⟩
      rcases List.mem_append.1 hcon with hcon | hcon
      · exact hrem2 hcon
      · exact hne (by simpa using hcon)
    · rintro ⟨hacc2, hrem2⟩
      refine ⟨?_, hacc2, ?_⟩
      · intro hne
        subst hne
        exact hrem2 (List.mem_append.2 (Or.inr (by simp)))
      · intro hcon
        exact hrem2 (List.mem_append.2 (Or.inl hcon))
  · rw [acceptedIds_append, hacc, List.append_nil]
    exact h.acc_sorted
  · rw [acceptedIds_append, hacc, List.append_nil]
    exact h.acc_le
  · intro a haa
    rw [removedIds_append, hrem] at haa
    rcases List.mem_append.1 haa with haa | haa
    · exact h.rem_le a haa
    · have : a = r := by simpa using haa
      subst this
      exact h.pending_le a hmem

theorem stepInv {ch : Channel} {os : List ChanOutput} (h : ChanInv ch os) (i : ChanInput) :
    ChanInv (step ch i).1 (os ++ [(step ch i).2]) := by
  cases i with
  | send =>
    by_cases ha : ch.alive = true
    · simp only [step]
      rw [if_pos ha]
      refine ⟨?_, ?_, ?_, ?_, ?_, ?_⟩
      · refine h.nodup.append (List.nodup_singleton _) ?_
        intro a ha1 ha2
        have h1 := h.pending_le a ha1
        have h2 : a = ch.nextRequestId + 1 := by simpa using ha2
        omega
      · intro x hx
        rcases List.mem_append.1 hx with hx | hx
        · exact Nat.le_succ_of_le (h.pending_le x hx)
        · have hx2 : x = ch.nextRequestId + 1 := by simpa using hx
          rw [hx2]
      · intro x
        rw [acceptedIds_append, removedIds_append]
        simp only [acceptedIds, removedIds, List.append_nil]
        constructor
        · intro hx
          rcases List.mem_append.1 hx with hx | hx
          · obtain ⟨h1, h2⟩ := (h.mem_iff x).1 hx
            exact ⟨List.mem_append.2 (Or.inl h1), h2⟩
          · have hx2 : x = ch.nextRequestId + 1 := by simpa using hx
            subst hx2
            refine ⟨List.mem_append.2 (Or.inr (by simp)), fun hcon => ?_⟩
            have := h.rem_le _ hcon
            omega
        · rintro ⟨hx1, hx2⟩
          rcases List.mem_append.1 hx1 with hx1 | hx1
          · exact List.mem_append.2 (Or.inl ((h.mem_iff x).2 ⟨hx1, hx2⟩))
          · have : x = ch.nextRequestId + 1 := by simpa using hx1
            subst this
            exact List.mem_append.2 (Or.inr (by simp))
      · rw [acceptedIds_append]
        simp only [acceptedIds]
        refine List.pairwise_append.2 ⟨h.acc_sorted, List.pairwise_singleton _ _, ?_⟩
        intro a haa b hb
        have := h.acc_le a haa
        have hb2 : b = ch.nextRequestId + 1 := by simpa using hb
        omega
      · intro x hx
        rw [acceptedIds_append] at hx
        simp only [acceptedIds] at hx
        rcases List.mem_append.1 hx with hx | hx
        · exact Nat.le_succ_of_le (h.acc_le x hx)
        · have hx2 : x = ch.nextRequestId + 1 := by simpa using hx
          rw [hx2]
      · intro x hx
        rw [removedIds_append] at hx
        simp only [removedIds, List.append_nil] at hx
        exact Nat.le_succ_of_le (h.rem_le x hx)
    · simp only [step]
      rw [if_neg ha]
      exact h.unchanged ChanOutput.rejectedNotAlive rfl rfl
  | line l =>
    cases l with
    | malformed =>
      exact h.unchanged ChanOutput.dropped rfl rfl
    | json j =>
      match hj : j.lid with
      | none =>
        simp only [step, hj]
        exact h.unchanged (ChanOutput.event j) rfl rfl
      | some r =>
        simp only [step, hj]
        by_cases hc : j.ltype = "response" ∧ r ∈ ch.pending
        · rw [if_pos hc]
          exact h.removeOne hc.2 (ChanOutput.resolved r j) rfl rfl
        · rw [if_neg hc]
          exact h.unchanged (ChanOutput.event j) rfl rfl
  | timeout r =>
    by_cases hc : r ∈ ch.pending
    · simp only [step]
      rw [if_pos hc]
      exact h.removeOne hc (ChanOutput.timedOut r) rfl rfl
    · simp only [step]
      rw [if_neg hc]
      exact h.unchanged ChanOutput.timerNoop rfl rfl
  | exit code signal =>
    simp only [step]
    refine ⟨List.nodup_nil, ?_, ?_, ?_, ?_, ?_⟩
    · intro a haa
      exact absurd haa (List.not_mem_nil a)
    · intro x
      rw [acceptedIds_append, removedIds_append]
      simp only [acceptedIds, removedIds, List.append_nil]
      simp only [List.not_mem_nil, false_iff]
      rintro ⟨hacc2, hrem2⟩
      by_cases hx : x ∈ removedIds os
      · exact hrem2 (List.mem_append.2 (Or.inl hx))
      · exact hrem2 (List.mem_append.2 (Or.inr ((h.mem_iff x).2 ⟨hacc2, hx⟩)))
    · rw [acceptedIds_append]
      simp only [acceptedIds, List.append_nil]
      exact h.acc_sorted
    · intro x hx
      rw [acceptedIds_append] at hx
      simp only [acceptedIds, List.append_nil] at hx
      exact h.acc_le x hx
    · intro x hx
      rw [removedIds_append] at hx
      simp only [removedIds, List.append_nil] at hx
      rcases List.mem_append.1 hx with hx | hx
      · exact h.rem_le x hx
      · exact h.pending_le x hx

theorem runInv (tr : List ChanInput) :
    ChanInv (run initChannel tr).1 (run initChannel tr).2 := by
  induction tr using List.reverseRecOn with
  | nil =>
    exact ⟨List.nodup_nil, by simp [initChannel, run],
      by simp [initChannel, run, acceptedIds],
      by simp [run, acceptedIds],
      by simp [run, acceptedIds],
      by simp [run, removedIds]⟩
  | append_singleton tr i ih =>
    rw [run_append, run_singleton]
    exact stepInv ih i

theorem step_resolved {ch : Channel} {i : ChanInput} {r : Nat} {j : JsonLine}
    (h : (step ch i).2 = .resolved r j) :
    j.lid = some r ∧ j.ltype = "response" := by
  cases i with
  | send =>
    by_cases ha : ch.alive = true <;> simp [step, ha] at h
  | line l =>
    cases l with
    | malformed => simp [step] at h
    | json j2 =>
      match hj : j2.lid with
      | none => simp [step, hj] at h
      | some r2 =>
        simp only [step, hj] at h
        by_cases hc : j2.ltype = "response" ∧ r2 ∈ ch.pending
        · rw [if_pos hc] at h
          cases h
          exact ⟨hj, hc.1⟩
        · rw [if_neg hc] at h
          simp at h
  | timeout r2 =>
    by_cases hc : r2 ∈ ch.pending <;> simp [step, hc] at h
  | exit code signal => simp [step] at h

theorem run_resolved_mem {ch : Channel} {r : Nat} {j : JsonLine} (tr : List ChanInput)
    (hm : ChanOutput.resolved r j ∈ (run ch tr).2) :
    j.lid = some r ∧ j.ltype = "response" := by
  induction tr generalizing ch with
  | nil => simp [run] at hm
  | cons i is ih =>
    simp only [run, List.mem_cons] at hm
    rcases hm with hm | hm
    · exact step_resolved hm.symm
    · exact ih hm

/-- C1 (request correlation): along any event-loop trace on one channel,
(1) whenever a command's future resolves it does so with a response line
whose `id` equals the request id assigned to that command, and (2) the
request ids assigned to the issued commands are strictly increasing, so no
two commands share an id and no command's future can resolve with a response
bearing a different command's id. -/
theorem request_correlation (tr : List ChanInput) :
    (∀ r j, ChanOutput.resolved r j ∈ (run initChannel tr).2 →
      j.lid = some r ∧ j.ltype = "response") ∧
    (acceptedIds (run initChannel tr).2).Pairwise (· < ·) :=
  ⟨fun _ _ hm => run_resolved_mem tr hm, (runInv tr).acc_sorted⟩

/-- Witness for `request_correlation`: a channel that accepts one command and
then reads the matching response line. -/
theorem request_correlation_witness :
    (ChanOutput.resolved 1 ⟨"response", some 1⟩ ∈
      (run initChannel
        [ChanInput.send, ChanInput.line (RawLine.json ⟨"response", some 1⟩)]).2) ∧
    ((⟨"response", some 1⟩ : JsonLine).lid = some 1 ∧
      (⟨"response", some 1⟩ : JsonLine).ltype = "response") :=
  ⟨by decide, (request_correlation
    [ChanInput.send, ChanInput.line (RawLine.json ⟨"response", some 1⟩)]).1 1 _ (by decide)⟩

/-- C2 (exit fails all pending): after any trace, when the process-exit
handler runs it rejects exactly the pending requests — all of them with the
single error `exitError code signal` — and leaves the pending-request map
empty; the rejected set is exactly the set of assigned-but-unanswered
request ids. -/
theorem exit_rejects_all_pending (tr : List ChanInput) (code : Int) (signal : Option String) :
    (step (run initChannel tr).1 (.exit code signal)).1.pending = [] ∧
    (step (run initChannel tr).1 (.exit code signal)).2 =
      .exited (exitError code signal) (run initChannel tr).1.pending ∧
    (∀ r, r ∈ (run initChannel tr).1.pending ↔
      (r ∈ acceptedIds (run initChannel tr).2 ∧
        r ∉ removedIds (run initChannel tr).2)) :=
  ⟨rfl, rfl, (runInv tr).mem_iff⟩

/-- C10 (late response after timeout becomes an event): once request `r` has
been rejected by its timeout, `r` is gone from the pending map, and a
response line bearing id `r` arriving at any later point is classified as an
ordinary event and emitted on the event stream, resolving nothing. -/
theorem late_response_becomes_event (t1 t2 : List ChanInput) (r : Nat) (j : JsonLine)
    (hto : (step (run initChannel t1).1 (.timeout r)).2 = .timedOut r)
    (hid : j.lid = some r) :
    r ∉ (run initChannel (t1 ++ [.timeout r])).1.pending ∧
    (step (run initChannel ((t1 ++ [.timeout r]) ++ t2)).1 (.line (.json j))).2 =
      .event j := by
  have hrem1 : r ∈ removedIds (run initChannel (t1 ++ [.timeout r])).2 := by
    rw [run_append, run_singleton]
    show r ∈ removedIds ((run initChannel t1).2 ++ [(step (run initChannel t1).1 (ChanInput.timeout r)).2])
    rw [removedIds_append, hto]
    simp [removedIds]
  have hnot1 : r ∉ (run initChannel (t1 ++ [.timeout r])).1.pending := by
    intro hmem
    exact (((runInv (t1 ++ [.timeout r])).mem_iff r).1 hmem).2 hrem1
  have hrem2 : r ∈ removedIds (run initChannel ((t1 ++ [.timeout r]) ++ t2)).2 := by
    rw [run_append initChannel (t1 ++ [ChanInput.timeout r]) t2]
    show r ∈ removedIds ((run initChannel (t1 ++ [.timeout r])).2 ++
      (run (run initChannel (t1 ++ [.timeout r])).1 t2).2)
    rw [removedIds_append]
    exact List.mem_append.2 (Or.inl hrem1)
  have hnot2 : r ∉ (run initChannel ((t1 ++ [.timeout r]) ++ t2)).1.pending := by
    intro hmem
    exact (((runInv ((t1 ++ [.timeout r]) ++ t2)).mem_iff r).1 hmem).2 hrem2
  refine ⟨hnot1, ?_⟩
  simp only [step, hid]
  rw [if_neg]
  · rintro ⟨-, hmem⟩
    exact hnot2 hmem

/-- Witness for `late_response_becomes_event`: one command is sent, its
timeout fires, and the late matching response is emitted as an event. -/
theorem late_response_becomes_event_witness :
    ((step (run initChannel [ChanInput.send]).1 (.timeout 1)).2 = .timedOut 1) ∧
    (1 ∉ (run initChannel ([ChanInput.send] ++ [.timeout 1])).1.pending ∧
      (step (run initChannel (([ChanInput.send] ++ [.timeout 1]) ++ [])).1
        (.line (.json ⟨"response", some 1⟩))).2 = .event ⟨"response", some 1⟩) :=
  ⟨by decide, late_response_becomes_event [ChanInput.send] [] 1 ⟨"response", some 1⟩
    (by decide) (by decide)⟩
end PiBridge

namespace Routes

/-- The per-bridge fan-out state of an `ActiveSession` in
`server/src/routes.ts`: the set of attached WebSocket clients (insertion
order, as a JS `Set`) and the `eventBuffer` of not-yet-delivered events.
Events and clients are identified by `Nat` labels.  The `fileTracker`,
`initialMessage` and `lastKnownState` fields do not influence event
delivery and are omitted. -/
structure SessState where
  wsClients : List Nat
  eventBuffer : List Nat
  deriving Repr, DecidableEq

/-- The session registered by `registerSession`: no clients, empty buffer. -/
def initSession : SessState :=
  { wsClients := [], eventBuffer := [] }

/-- One event-loop callback touching the fan-out state: `ev e` is the
bridge emitting event `e` (the `bridge.events.on("event")` handler),
`attach c` is the `GET /api/ws/:bridgeId` WebSocket handler running for a
newly connected client `c`, and `detach c` is client `c`'s socket close
handler. -/
inductive SessInput where
  | ev (e : Nat)
  | attach (c : Nat)
  | detach (c : Nat)
  deriving Repr, DecidableEq

/-- JS `Set.prototype.add`: append unless already present. -/
def insertClient (l : List Nat) (c : Nat) : List Nat :=
  if c ∈ l then l else l ++ [c]

/-- One step of the fan-out, returning the new state and the list of
`(client, event)` deliveries it performs, in order.  Translated from
`registerSession`'s event handler (buffer when `wsClients.size === 0`, else
send to every open client) and from the WebSocket attach handler (replay the
buffered events to the new client, clear the buffer, then add the client).
A client in `wsClients` is open; the `readyState === 1` guard is the
membership test, since a closed socket is removed by its close handler. -/
def sessStep (s : SessState) : SessInput → SessState × List (Nat × Nat)
  | .ev e =>
    if s.wsClients = [] then
      ({ s with eventBuffer := s.eventBuffer ++ [e] }, [])
    else (s, s.wsClients.map (fun c => (c, e)))
  | .attach c =>
    ({ wsClients := insertClient s.wsClients c, eventBuffer := [] },
      s.eventBuffer.map (fun e => (c, e)))
  | .detach c =>
    ({ s with wsClients := s.wsClients.filter (fun x => !(x == c)) }, [])

/-- Run a sequence of fan-out callbacks, concatenating the deliveries. -/
def sessRun (s : SessState) : List SessInput → SessState × List (Nat × Nat)
  | [] => (s, [])
  | i :: is =>
    let st := sessStep s i
    let t := sessRun st.1 is
    (t.1, st.2 ++ t.2)

/-- The sequence of event payloads delivered to client `c`. -/
def deliveriesTo (c : Nat) (ds : List (Nat × Nat)) : List Nat :=
  (ds.filter (fun d => d.1 == c)).map (fun d => d.2)

/-- The events occurring in a list of fan-out inputs, in order. -/
def eventsOf : List SessInput → List Nat
  | [] => []
  | .ev e :: is => e :: eventsOf is
  | _ :: is => eventsOf is

theorem deliveriesTo_append (c : Nat) (a b : List (Nat × Nat)) :
    deliveriesTo c (a ++ b) = deliveriesTo c a ++ deliveriesTo c b := by
  simp [deliveriesTo]

theorem sessRun_append (s : SessState) (t1 t2 : List SessInput) :
    sessRun s (t1 ++ t2) =
      ((sessRun (sessRun s t1).1 t2).1,
        (sessRun s t1).2 ++ (sessRun (sessRun s t1).1 t2).2) := by
  induction t1 generalizing s with
  | nil => simp [sessRun]
  | cons i is ih => simp [sessRun, ih]

theorem sessRun_events_buffered (b : List Nat) (E : List Nat) :
    sessRun { wsClients := [], eventBuffer := b } (E.map SessInput.ev) =
      ({ wsClients := [], eventBuffer := b ++ E }, []) := by
  induction E generalizing b with
  | nil => simp [sessRun]
  | cons e rest ih =>
    simp [sessRun, sessStep, ih, List.append_assoc]

theorem deliveriesTo_not_mem (c e : Nat) (l : List Nat) (h : c ∉ l) :
    deliveriesTo c (l.map (fun x => (x, e))) = [] := by
  induction l with
  | nil => simp [deliveriesTo]
  | cons a rest ih =>
    have ha : ¬(a == c) := by
      simp only [beq_iff_eq]
      intro hac
      exact h (by simp [hac])
    have hrest : c ∉ rest := fun hc => h (by simp [hc])
    simp only [List.map_cons, deliveriesTo, List.filter_cons] at ih ⊢
    simp only [ha]
    simpa [deliveriesTo] using ih hrest

theorem deliveriesTo_fanout (c e : Nat) (l : List Nat)
    (hmem : c ∈ l) (hnd : l.Nodup) :
    deliveriesTo c (l.map (fun x => (x, e))) = [e] := by
  induction l with
  | nil => cases hmem
  | cons a rest ih =>
    by_cases hac : a = c
    · subst hac
      have hnot : a ∉ rest := (List.nodup_cons.1 hnd).1
      have := deliveriesTo_not_mem a e rest hnot
      simp only [List.map_cons, deliveriesTo, List.filter_cons] at this ⊢
      simp only [beq_self_eq_true]
      simpa [deliveriesTo] using this
    · have hmem2 : c ∈ rest := by
        rcases List.mem_cons.1 hmem with h1 | h1
        · exact absurd h1.symm hac
        · exact h1
      have hna : ¬(a == c) := by simpa using hac
      have := ih hmem2 (List.nodup_cons.1 hnd).2
      simp only [List.map_cons, deliveriesTo, List.filter_cons] at this ⊢
      simpa [hna, deliveriesTo] using this

theorem deliveriesTo_replay (c : Nat) (E : List Nat) :
    deliveriesTo c (E.map (fun e => (c, e))) = E := by
  induction E with
  | nil => simp [deliveriesTo]
  | cons e rest ih =>
    simp only [List.map_cons, deliveriesTo, List.filter_cons] at ih ⊢
    simpa [deliveriesTo] using ih

theorem sessRun_live (post : List SessInput) (s : SessState) (c : Nat)
    (hmem : c ∈ s.wsClients) (hnd : s.wsClients.Nodup)
    (hbuf : s.eventBuffer = [])
    (hnod : ∀ i ∈ post, i ≠ SessInput.detach c) :
    deliveriesTo c (sessRun s post).2 = eventsOf post ∧
    c ∈ (sessRun s post).1.wsClients ∧
    (sessRun s post).1.wsClients.Nodup ∧
    (sessRun s post).1.eventBuffer = [] := by
  induction post generalizing s with
  | nil => exact ⟨by simp [sessRun, deliveriesTo, eventsOf], hmem, hnd, hbuf⟩
  | cons i is ih =>
    cases i with
    | ev e =>
      have hne : ¬(s.wsClients = []) := by
        intro hc
        rw [hc] at hmem
        cases hmem
      have hrest := ih s hmem hnd hbuf (fun i hi => hnod i (by simp [hi]))
      simp only [sessRun, sessStep, hne, if_neg, not_false_eq_true,
        deliveriesTo_append, eventsOf]
      refine ⟨?_, hrest.2⟩
      rw [deliveriesTo_fanout c e s.wsClients hmem hnd, hrest.1]
      rfl
    | attach c2 =>
      have hmem2 : c ∈ insertClient s.wsClients c2 := by
        unfold insertClient
        by_cases hc2 : c2 ∈ s.wsClients
        · simpa [hc2] using hmem
        · simp [hc2, List.mem_append, hmem]
      have hnd2 : (insertClient s.wsClients c2).Nodup := by
        unfold insertClient
        by_cases hc2 : c2 ∈ s.wsClients
        · simpa [hc2] using hnd
        · simp only [hc2, if_neg, not_false_eq_true]
          refine hnd.append (List.nodup_singleton _) ?_
          intro a ha1 ha2
          have ha3 : a = c2 := by simpa using ha2
          subst ha3
          exact hc2 ha1
      have hrest := ih { wsClients := insertClient s.wsClients c2, eventBuffer := [] }
        hmem2 hnd2 rfl (fun i hi => hnod i (by simp [hi]))
      simp only [sessRun, sessStep, hbuf, deliveriesTo_append, eventsOf]
      refine ⟨?_, hrest.2⟩
      simp only [List.map_nil]
      rw [hrest.1]
      simp [deliveriesTo]
    | detach c2 =>
      have hc2 : c2 ≠ c := by
        intro hc
        subst hc
        exact (hnod (SessInput.detach c2) (by simp)) rfl
      have hmem2 : c ∈ s.wsClients.filter (fun x => !(x == c2)) := by
        rw [List.mem_filter]
        exact ⟨hmem, by simpa using fun hc => hc2 hc.symm⟩
      have hnd2 : (s.wsClients.filter (fun x => !(x == c2))).Nodup :=
        hnd.filter _
      have hrest := ih { s with wsClients := s.wsClients.filter (fun x => !(x == c2)) }
        hmem2 hnd2 hbuf (fun i hi => hnod i (by simp [hi]))
      simp only [sessRun, sessStep, deliveriesTo_append, eventsOf]
      refine ⟨?_, hrest.2⟩
      rw [hrest.1]
      simp [deliveriesTo]

/-- C3 (buffer replay exactly once): if events `E1..En` arrive before any
subscriber has attached, the first subscriber `c` receives exactly
`E1..En` — in arrival order, each exactly once — followed by exactly the
live events that arrive after its attach, for as long as it stays
attached. In particular every replayed backlog event reaches `c` before
any live event that arrived after the attach. -/
theorem first_subscriber_replay (E : List Nat) (c : Nat) (post : List SessInput)
    (hnod : ∀ i ∈ post, i ≠ SessInput.detach c) :
    deliveriesTo c
      (sessRun initSession ((E.map SessInput.ev) ++ SessInput.attach c :: post)).2 =
      E ++ eventsOf post := by
  rw [sessRun_append]
  have hbufd : sessRun initSession (E.map SessInput.ev) =
      ({ wsClients := [], eventBuffer := [] ++ E }, []) :=
    sessRun_events_buffered [] E
  rw [hbufd]
  simp only [List.nil_append, deliveriesTo_append]
  show deliveriesTo c [] ++
      deliveriesTo c (sessRun { wsClients := [], eventBuffer := E }
        (SessInput.attach c :: post)).2 = E ++ eventsOf post
  have hstep : sessStep { wsClients := [], eventBuffer := E } (SessInput.attach c) =
      ({ wsClients := [c], eventBuffer := [] }, E.map (fun e => (c, e))) := by
    simp [sessStep, insertClient]
  have hlive := sessRun_live post { wsClients := [c], eventBuffer := [] } c
    (by simp) (List.nodup_singleton c) rfl hnod
  simp only [sessRun, hstep, deliveriesTo_append]
  rw [deliveriesTo_replay, hlive.1]
  simp [deliveriesTo]

/-- Witness for `first_subscriber_replay`: two buffered events are replayed
to the first subscriber, then a live event follows, while a second
subscriber attaches in between. -/
theorem first_subscriber_replay_witness :
    (∀ i ∈ [SessInput.attach 1, SessInput.ev 7], i ≠ SessInput.detach 0) ∧
    deliveriesTo 0
      (sessRun initSession (([5, 6].map SessInput.ev) ++
        SessInput.attach 0 :: [SessInput.attach 1, SessInput.ev 7])).2 =
      [5, 6] ++ eventsOf [SessInput.attach 1, SessInput.ev 7] :=
  ⟨by decide, first_subscriber_replay [5, 6] 0 [SessInput.attach 1, SessInput.ev 7]
    (by decide)⟩

/-- Counterexample to C4 as stated: the bridge does not permanently stop
retaining a backlog after the first subscriber drains it.  Here subscriber 0
attaches first and drains the (one-element) backlog, then detaches; event 2
arrives while no subscriber is attached and is buffered again; subscriber 1,
attaching later, receives event 2 — an event that arrived before its own
attach — as a replay, where the claim says it must receive no replayed
events. -/
theorem no_replay_claim_false :
    deliveriesTo 1
      (sessRun initSession
        [SessInput.ev 1, SessInput.attach 0, SessInput.detach 0,
          SessInput.ev 2, SessInput.attach 1]).2 = [2] := by
  decide

theorem buffer_empty_of_subscribed (tr : List SessInput) :
    (sessRun initSession tr).1.wsClients ≠ [] →
      (sessRun initSession tr).1.eventBuffer = [] := by
  suffices h : ∀ (s : SessState), (s.wsClients ≠ [] → s.eventBuffer = []) →
      ((sessRun s tr).1.wsClients ≠ [] → (sessRun s tr).1.eventBuffer = []) by
    exact h initSession (fun _ => rfl)
  induction tr with
  | nil => intro s hs; simpa [sessRun] using hs
  | cons i is ih =>
    intro s hs
    simp only [sessRun]
    apply ih
    cases i with
    | ev e =>
      by_cases hw : s.wsClients = []
      · simp only [sessStep, hw, if_pos]
        intro hc
        exact absurd rfl hc
      · simp only [sessStep, hw, if_neg, not_false_eq_true]
        intro _
        exact hs hw
    | attach c => intro _; rfl
    | detach c =>
      simp only [sessStep]
      intro hne
      apply hs
      intro hw
      rw [hw] at hne
      simp at hne
    
/-- C4 amended: a subscriber attaching while at least one subscriber is
currently attached receives no replayed events (the backlog is empty
whenever the subscriber set is non-empty); replay only happens for a
subscriber that attaches while the subscriber set is empty, as at first
attach or after every subscriber has detached. -/
theorem no_replay_while_subscribed (tr : List SessInput) (c : Nat)
    (h : (sessRun initSession tr).1.wsClients ≠ []) :
    (sessStep (sessRun initSession tr).1 (SessInput.attach c)).2 = [] := by
  have hbuf := buffer_empty_of_subscribed tr h
  simp [sessStep, hbuf]

/-- Witness for `no_replay_while_subscribed`: subscriber 0 stays attached,
an event is fanned out live, and subscriber 1 then attaches with no replay. -/
theorem no_replay_while_subscribed_witness :
    ((sessRun initSession [SessInput.attach 0, SessInput.ev 3]).1.wsClients ≠ []) ∧
    (sessStep (sessRun initSession [SessInput.attach 0, SessInput.ev 3]).1
      (SessInput.attach 1)).2 = [] :=
  ⟨by decide, no_replay_while_subscribed [SessInput.attach 0, SessInput.ev 3] 1
    (by decide)⟩

end Routes

namespace Routes

/-- One entry of the `activeSessions` registry as `POST /api/resume` sees
it: the bridge id (`bridge_<n>`, modelled by `n`), the bridge's
`sessionFile` binding, and its `alive` flag.  Entries appear in map
insertion order. -/
structure SessionEntry where
  bridgeId : Nat
  sessionFile : Option String
  alive : Bool
  deriving Repr, DecidableEq

/-- Result of the resume handler: either the id of an already-registered
bridge (returned with `alreadyActive: true`) or the id of a freshly spawned
bridge. -/
inductive ResumeOutcome where
  | alreadyActive (bridgeId : Nat)
  | spawned (bridgeId : Nat)
  deriving Repr, DecidableEq

/-- The `for (const [, session] of activeSessions)` scan of the resume
handler: first registered session whose bridge is bound to `f`. -/
def findBySessionFile (l : List SessionEntry) (f : String) : Option SessionEntry :=
  l.find? (fun s => s.sessionFile == some f)

/-- The `POST /api/resume` handler: if some registered session's bridge has
`sessionFile === f`, return its bridge id with `alreadyActive`; otherwise
spawn a new bridge bound to `f` (with the next fresh bridge id) and
register it. -/
def resume (sessions : List SessionEntry) (f : String) (freshId : Nat) :
    List SessionEntry × ResumeOutcome :=
  match findBySessionFile sessions f with
  | some s => (sessions, .alreadyActive s.bridgeId)
  | none =>
    (sessions ++ [{ bridgeId := freshId, sessionFile := some f, alive := true }],
      .spawned freshId)

theorem findBySessionFile_unique (l : List SessionEntry) (f : String)
    (s0 : SessionEntry) (hmem : s0 ∈ l) (hf : s0.sessionFile = some f)
    (huniq : ∀ s1 ∈ l, s1.sessionFile = some f → s1 = s0) :
    findBySessionFile l f = some s0 := by
  induction l with
  | nil => cases hmem
  | cons a rest ih =>
    by_cases ha : a.sessionFile = some f
    · have ha2 : (a.sessionFile == some f) = true := by simpa using ha
      have haeq : a = s0 := huniq a (by simp) ha
      subst haeq
      simp [findBySessionFile, List.find?, ha2]
    · have ha2 : (a.sessionFile == some f) = false := by simpa using ha
      have hmem2 : s0 ∈ rest := by
        rcases List.mem_cons.1 hmem with h1 | h1
        · subst h1; exact absurd hf ha
        · exact h1
      have huniq2 : ∀ s1 ∈ rest, s1.sessionFile = some f → s1 = s0 :=
        fun s1 h1 h2 => huniq s1 (List.mem_cons_of_mem a h1) h2
      simp only [findBySessionFile, List.find?, ha2]
      exact ih hmem2 huniq2

/-- C8 (idempotent resume): (1) when exactly one registered session is bound
to session file `f` and its bridge is live, resuming `f` returns that
bridge's id as `alreadyActive` and spawns nothing — the registry is
unchanged; (2) whenever resuming `f` spawns a new bridge, no registered
session — in particular no live one — was bound to `f`. -/
theorem resume_idempotent (sessions : List SessionEntry) (f : String) (n : Nat) :
    (∀ s0, s0 ∈ sessions → s0.sessionFile = some f → s0.alive = true →
      (∀ s1 ∈ sessions, s1.sessionFile = some f → s1 = s0) →
      resume sessions f n = (sessions, .alreadyActive s0.bridgeId)) ∧
    (∀ b, (resume sessions f n).2 = .spawned b →
      ∀ s1 ∈ sessions, ¬s1.sessionFile = some f) := by
  constructor
  · intro s0 hmem hf _ huniq
    rw [resume, findBySessionFile_unique sessions f s0 hmem hf huniq]
  · intro b hsp s1 hmem1 hf1
    rw [resume] at hsp
    cases hfind : findBySessionFile sessions f with
    | some s => rw [hfind] at hsp; cases hsp
    | none =>
      have hfind2 : List.find? (fun s => s.sessionFile == some f) sessions = none := hfind
      have hall := List.find?_eq_none.1 hfind2 s1 hmem1
      simp only [beq_iff_eq] at hall
      exact hall hf1

/-- Witness for `resume_idempotent`: a registry with one live bridge bound
to the requested file and one unrelated bridge. -/
theorem resume_idempotent_witness :
    (resume [⟨4, some ("a.json"), true⟩, ⟨9, none, true⟩] ("a.json") 10 =
      ([⟨4, some ("a.json"), true⟩, ⟨9, none, true⟩], .alreadyActive 4)) ∧
    (∀ b, (resume [⟨4, some ("a.json"), true⟩, ⟨9, none, true⟩] ("a.json") 10).2 =
        .spawned b →
      ∀ s1 ∈ [(⟨4, some ("a.json"), true⟩ : SessionEntry), ⟨9, none, true⟩],
        ¬s1.sessionFile = some ("a.json")) :=
  ⟨(resume_idempotent [⟨4, some ("a.json"), true⟩, ⟨9, none, true⟩] ("a.json") 10).1
      ⟨4, some ("a.json"), true⟩ (by decide) (by decide) (by decide) (by decide),
    (resume_idempotent [⟨4, some ("a.json"), true⟩, ⟨9, none, true⟩] ("a.json") 10).2⟩

end Routes

namespace RigTools

/-- The dedupe window of `rig_dispatch` (`DUPLICATE_DISPATCH_WINDOW_MS`). -/
def DUPLICATE_DISPATCH_WINDOW_MS : Nat := 45000

/-- The awaiting-model-selection window (`AWAITING_MODEL_WINDOW_MS`). -/
def AWAITING_MODEL_WINDOW_MS : Nat := 10 * 60000

/-- The whitespace characters of the JS regex `\s` in the ASCII range
(space, tab, line feed, carriage return, vertical tab, form feed). -/
def isJsSpace (c : Char) : Bool :=
  c == ' ' || c == '\t' || c == '\n' || c == '\r' || c.val == 11 || c.val == 12

/-- JS `String.prototype.trim`: drop whitespace from both ends. -/
def jsTrim (s : String) : String :=
  ⟨((s.data.dropWhile isJsSpace).reverse.dropWhile isJsSpace).reverse⟩

/-- JS `String.prototype.toLowerCase` on the characters in use. -/
def jsToLower (s : String) : String :=
  s.map Char.toLower

/-- One `foldl` step of `replace(/\s+/g, " ")`: the flag records whether the
previous character was whitespace, so a maximal whitespace run contributes
one single space. -/
def collapseStep (acc : List Char × Bool) (c : Char) : List Char × Bool :=
  if isJsSpace c then
    if acc.2 then acc else (acc.1 ++ [' '], true)
  else (acc.1 ++ [c], false)

/-- JS `replace(/\s+/g, " ")`. -/
def collapseWs (s : String) : String :=
  ⟨(s.data.foldl collapseStep ([], false)).1⟩

/-- The message normalization used by both dispatch keys:
`message.trim().toLowerCase().replace(/\s+/g, " ")`. -/
def normalizeMessage (message : String) : String :=
  collapseWs (jsToLower (jsTrim message))

/-- JS `x || ""` for the optional string fields of the key. -/
def orEmpty : Option String → String
  | some v => v
  | none => ""

/-- JS truthiness of an optional string parameter (absent or empty is
falsy). -/
def optTruthy : Option String → Bool
  | some v => !(v == "")
  | none => false

/-- `dispatchDedupeKey` of `rig-tools.ts`: `[cwd, normalized message,
provider || "", model || "", thinkingLevel || ""].join("::")`. -/
def dispatchDedupeKey (cwd message : String)
    (provider model thinkingLevel : Option String) : String :=
  String.intercalate ("::")
    [cwd, normalizeMessage message, orEmpty provider, orEmpty model,
      orEmpty thinkingLevel]

/-- `dispatchRequestKey` of `rig-tools.ts`: `[cwd, normalized message,
thinkingLevel || ""].join("::")`. -/
def dispatchRequestKey (cwd message : String) (thinkingLevel : Option String) : String :=
  String.intercalate ("::") [cwd, normalizeMessage message, orEmpty thinkingLevel]

/-- The mutable state the dispatch path touches: the `recentDispatches` map
(key to `{at, details}`, details abbreviated to the returned bridge id), the
`awaitingModelSelection` map (key to timestamp), and the rig server's
`bridgeIdCounter` from `pi-bridge.ts` (the POST to `/api/dispatch` spawns
`bridge_<counter + 1>`). -/
structure ExtState where
  recent : List (String × Nat × Nat)
  awaitingModel : List (String × Nat)
  bridgeIdCounter : Nat
  deriving Repr, DecidableEq

/-- Process start: both caches empty, no bridge spawned yet. -/
def initExtState : ExtState :=
  { recent := [], awaitingModel := [], bridgeIdCounter := 0 }

/-- Result of `rig_dispatch`'s execute calls relevant to deduplication:
a project-picker pause, an awaiting-model-selection pause, a model-picker
pause, or a dispatch result carrying the bridge id and the `deduped`
marker. -/
inductive DispatchOutcome where
  | needsProject (err : String)
  | awaitingSelection
  | needsModel
  | dispatched (bridgeId : Nat) (deduped : Bool)
  deriving Repr, DecidableEq

/-- Outcome of `resolveDispatchCwd` (an HTTP round trip to `/api/projects`):
either a registered project path or a project-selection pause. -/
inductive ResolvedCwd where
  | ok (cwd : String)
  | needsProject (err : String)
  deriving Repr, DecidableEq

/-- The `rig_dispatch` execute flow of `operator/extensions/rig-tools.ts`
from the project resolution on: the awaiting-model gate, the
missing-model branch, the `recentDispatches` dedupe window check, and the
successful POST to `/api/dispatch` (which spawns the next bridge, records
the dispatch in `recentDispatches` and clears the awaiting-model entry).
A `Date.now()` timestamp is passed as `now`; timestamps are positive, so JS
truthiness of `awaitingSince` is its presence in the map. -/
def executeDispatch (st : ExtState) (now : Nat) (resolved : ResolvedCwd)
    (message : String) (provider model thinkingLevel : Option String) :
    ExtState × DispatchOutcome :=
  match resolved with
  | .needsProject err => (st, .needsProject err)
  | .ok cwd =>
    let requestKey := dispatchRequestKey cwd message thinkingLevel
    let awaitingHit : Bool :=
      match JsMap.get st.awaitingModel requestKey with
      | some since => decide (now - since < AWAITING_MODEL_WINDOW_MS)
      | none => false
    if awaitingHit && optTruthy provider && optTruthy model then
      (st, .awaitingSelection)
    else if !(optTruthy provider && optTruthy model) then
      ({ st with awaitingModel := JsMap.set st.awaitingModel requestKey now },
        .needsModel)
    else
      let dedupeKey := dispatchDedupeKey cwd message provider model thinkingLevel
      let dedupeHit : Option Nat :=
        match JsMap.get st.recent dedupeKey with
        | some entry =>
          if now - entry.1 < DUPLICATE_DISPATCH_WINDOW_MS then some entry.2 else none
        | none => none
      match dedupeHit with
      | some bid => (st, .dispatched bid true)
      | none =>
        ({ st with
            bridgeIdCounter := st.bridgeIdCounter + 1,
            recent := JsMap.set st.recent dedupeKey (now, st.bridgeIdCounter + 1),
            awaitingModel := JsMap.del st.awaitingModel requestKey },
          .dispatched (st.bridgeIdCounter + 1) false)

/-- C5 (dedupe idempotence): starting from a state in which the identical
request is not yet cached, a dispatch at `t1` spawns bridge `c + 1`; the
identical dispatch at `t2` within the 45-second window returns the same
bridge id with `deduped := true` and leaves the state — in particular the
spawn counter — unchanged (exactly one process spawned); the identical
dispatch at `t3` at or after the window's end spawns a new process with the
different bridge id `c + 2`. -/
theorem dispatch_dedupe_idempotent (st : ExtState) (cwd message : String)
    (provider model thinkingLevel : Option String) (t1 t2 t3 : Nat)
    (hp : optTruthy provider = true) (hm : optTruthy model = true)
    (hrecent : JsMap.get st.recent
      (dispatchDedupeKey cwd message provider model thinkingLevel) = none)
    (hawait : JsMap.get st.awaitingModel
      (dispatchRequestKey cwd message thinkingLevel) = none)
    (h12 : t1 ≤ t2) (h2 : t2 < t1 + DUPLICATE_DISPATCH_WINDOW_MS)
    (h3 : t1 + DUPLICATE_DISPATCH_WINDOW_MS ≤ t3) :
    ∃ stA stB : ExtState,
      executeDispatch st t1 (.ok cwd) message provider model thinkingLevel =
        (stA, .dispatched (st.bridgeIdCounter + 1) false) ∧
      stA.bridgeIdCounter = st.bridgeIdCounter + 1 ∧
      executeDispatch stA t2 (.ok cwd) message provider model thinkingLevel =
        (stA, .dispatched (st.bridgeIdCounter + 1) true) ∧
      executeDispatch stA t3 (.ok cwd) message provider model thinkingLevel =
        (stB, .dispatched (st.bridgeIdCounter + 2) false) ∧
      st.bridgeIdCounter + 2 ≠ st.bridgeIdCounter + 1 := by
  have hlt : t2 - t1 < DUPLICATE_DISPATCH_WINDOW_MS := by
    unfold DUPLICATE_DISPATCH_WINDOW_MS at h2 ⊢
    omega
  have hge : ¬(t3 - t1 < DUPLICATE_DISPATCH_WINDOW_MS) := by
    unfold DUPLICATE_DISPATCH_WINDOW_MS at h3 ⊢
    omega
  refine ⟨{ st with
      bridgeIdCounter := st.bridgeIdCounter + 1,
      recent := JsMap.set st.recent
        (dispatchDedupeKey cwd message provider model thinkingLevel)
        (t1, st.bridgeIdCounter + 1),
      awaitingModel := JsMap.del st.awaitingModel
        (dispatchRequestKey cwd message thinkingLevel) },
    { st with
      bridgeIdCounter := st.bridgeIdCounter + 2,
      recent := JsMap.set
        (JsMap.set st.recent
          (dispatchDedupeKey cwd message provider model thinkingLevel)
          (t1, st.bridgeIdCounter + 1))
        (dispatchDedupeKey cwd message provider model thinkingLevel)
        (t3, st.bridgeIdCounter + 2),
      awaitingModel := JsMap.del
        (JsMap.del st.awaitingModel (dispatchRequestKey cwd message thinkingLevel))
        (dispatchRequestKey cwd message thinkingLevel) }, ?_, rfl, ?_, ?_, by omega⟩
  · simp [executeDispatch, hawait, hrecent, hp, hm]
  · simp [executeDispatch, hp, hm, JsMap.get_del_self, JsMap.get_set_self, hlt]
  · simp [executeDispatch, hp, hm, JsMap.get_del_self, JsMap.get_set_self, hge]

/-- Witness for `dispatch_dedupe_idempotent`: a fresh operator state, a
dispatch at `t = 1000`, a duplicate at `t = 2000`, and a repeat at
`t = 46000`. -/
theorem dispatch_dedupe_idempotent_witness :
    (optTruthy (some ("p")) = true) ∧
    (optTruthy (some ("gpt")) = true) ∧
    (JsMap.get initExtState.recent
      (dispatchDedupeKey ("/proj") ("add tests") (some ("p")) (some ("gpt")) none) =
        none) ∧
    (JsMap.get initExtState.awaitingModel
      (dispatchRequestKey ("/proj") ("add tests") none) = none) ∧
    (1000 ≤ 2000) ∧ (2000 < 1000 + DUPLICATE_DISPATCH_WINDOW_MS) ∧
    (1000 + DUPLICATE_DISPATCH_WINDOW_MS ≤ 46000) ∧
    (∃ stA stB : ExtState,
      executeDispatch initExtState 1000 (.ok ("/proj")) ("add tests")
          (some ("p")) (some ("gpt")) none =
        (stA, .dispatched (initExtState.bridgeIdCounter + 1) false) ∧
      stA.bridgeIdCounter = initExtState.bridgeIdCounter + 1 ∧
      executeDispatch stA 2000 (.ok ("/proj")) ("add tests")
          (some ("p")) (some ("gpt")) none =
        (stA, .dispatched (initExtState.bridgeIdCounter + 1) true) ∧
      executeDispatch stA 46000 (.ok ("/proj")) ("add tests")
          (some ("p")) (some ("gpt")) none =
        (stB, .dispatched (initExtState.bridgeIdCounter + 2) false) ∧
      initExtState.bridgeIdCounter + 2 ≠ initExtState.bridgeIdCounter + 1) :=
  ⟨by decide, by decide, by decide, by decide, by decide, by decide, by decide,
    dispatch_dedupe_idempotent initExtState ("/proj") ("add tests")
      (some ("p")) (some ("gpt")) none 1000 2000 46000
      (by decide) (by decide) (by decide) (by decide)
      (by decide) (by decide) (by decide)⟩

end RigTools

namespace Operator

/-- Counter view of one conversation's promise queue in
`SessionManager.sendMessage`: `submitted` counts `sendMessage` calls that
have chained a turn onto this conversation's `queue`, `started` counts turns
whose `runTurn` has begun (its first action writes the prompt line to the
bridge), and `settled` counts turns whose `run` promise has settled
(resolved on a terminal event, or rejected on timeout/exit).  Turn `k`
(0-indexed) is the `k`-th chained turn. -/
structure TurnQueue where
  submitted : Nat
  started : Nat
  settled : Nat
  deriving Repr, DecidableEq

/-- A conversation that has just been ensured: empty resolved queue. -/
def initQueue : TurnQueue :=
  { submitted := 0, started := 0, settled := 0 }

/-- Scheduler events on one conversation's queue: a `sendMessage` call
chains the next turn (`submit`), the event loop runs a chained turn's
continuation (`start`), a running turn's promise settles (`settle`). -/
inductive QEvent where
  | submit
  | start
  | settle
  deriving Repr, DecidableEq

/-- One scheduler event, constrained by the promise chaining of
`sendMessage` (`run = queue.then(() => runTurn(...)); queue =
run.then(id, id)`): the continuation of turn `k` is chained on turn
`k - 1`'s settled `run` promise, so it can only start once every earlier
turn has settled (`settled = started`) and only if it has been submitted;
a settle requires a running turn.  Events violating these constraints
cannot be scheduled (`none`). -/
def qstep (q : TurnQueue) : QEvent → Option TurnQueue
  | .submit => some { q with submitted := q.submitted + 1 }
  | .start =>
    if q.started < q.submitted ∧ q.settled = q.started then
      some { q with started := q.started + 1 }
    else none
  | .settle =>
    if q.settled < q.started then some { q with settled := q.settled + 1 }
    else none

/-- Run a schedule of queue events; `none` if the schedule is not realizable
by the event loop. -/
def qrun (q : TurnQueue) : List QEvent → Option TurnQueue
  | [] => some q
  | e :: es =>
    match qstep q e with
    | some q2 => qrun q2 es
    | none => none

theorem qrun_append (q : TurnQueue) (a b : List QEvent) :
    qrun q (a ++ b) =
      match qrun q a with
      | some q2 => qrun q2 b
      | none => none := by
  induction a generalizing q with
  | nil => simp [qrun]
  | cons e es ih =>
    simp only [List.cons_append, qrun]
    cases qstep q e with
    | some q2 => exact ih q2
    | none => rfl

/-- Number of `submit` events in a schedule. -/
def nSubmits : List QEvent → Nat
  | [] => 0
  | .submit :: xs => nSubmits xs + 1
  | _ :: xs => nSubmits xs

/-- Number of `start` events (prompt writes) in a schedule. -/
def nStarts : List QEvent → Nat
  | [] => 0
  | .start :: xs => nStarts xs + 1
  | _ :: xs => nStarts xs

/-- Number of `settle` events (observed terminal events or failures) in a
schedule. -/
def nSettles : List QEvent → Nat
  | [] => 0
  | .settle :: xs => nSettles xs + 1
  | _ :: xs => nSettles xs

theorem qrun_counts (l : List QEvent) (q q2 : TurnQueue) (h : qrun q l = some q2) :
    q2.submitted = q.submitted + nSubmits l ∧
    q2.started = q.started + nStarts l ∧
    q2.settled = q.settled + nSettles l := by
  induction l generalizing q with
  | nil =>
    simp only [qrun] at h
    cases h
    simp [nSubmits, nStarts, nSettles]
  | cons e es ih =>
    simp only [qrun] at h
    cases e with
    | submit =>
      simp only [qstep] at h
      have hrec := ih { q with submitted := q.submitted + 1 } h
      simp only [nSubmits, nStarts, nSettles]
      simp at hrec
      omega
    | start =>
      simp only [qstep] at h
      by_cases hc : q.started < q.submitted ∧ q.settled = q.started
      · rw [if_pos hc] at h
        have hrec := ih { q with started := q.started + 1 } h
        simp only [nSubmits, nStarts, nSettles]
        simp at hrec
        omega
      · rw [if_neg hc] at h
        cases h
    | settle =>
      simp only [qstep] at h
      by_cases hc : q.settled < q.started
      · rw [if_pos hc] at h
        have hrec := ih { q with settled := q.settled + 1 } h
        simp only [nSubmits, nStarts, nSettles]
        simp at hrec
        omega
      · rw [if_neg hc] at h
        cases h

theorem qrun_inv (l : List QEvent) (q q2 : TurnQueue)
    (h1 : q.settled ≤ q.started) (h2 : q.started ≤ q.settled + 1)
    (h3 : q.started ≤ q.submitted) (h : qrun q l = some q2) :
    q2.settled ≤ q2.started ∧ q2.started ≤ q2.settled + 1 ∧
      q2.started ≤ q2.submitted := by
  induction l generalizing q with
  | nil =>
    simp only [qrun] at h
    cases h
    exact ⟨h1, h2, h3⟩
  | cons e es ih =>
    simp only [qrun] at h
    cases e with
    | submit =>
      simp only [qstep] at h
      refine ih { q with submitted := q.submitted + 1 } h1 h2 ?_ h
      show q.started ≤ q.submitted + 1
      omega
    | start =>
      simp only [qstep] at h
      by_cases hc : q.started < q.submitted ∧ q.settled = q.started
      · rw [if_pos hc] at h
        obtain ⟨hc1, hc2⟩ := hc
        refine ih { q with started := q.started + 1 } ?_ ?_ ?_ h
        · show q.settled ≤ q.started + 1
          omega
        · show q.started + 1 ≤ q.settled + 1
          omega
        · show q.started + 1 ≤ q.submitted
          omega
      · rw [if_neg hc] at h
        cases h
    | settle =>
      simp only [qstep] at h
      by_cases hc : q.settled < q.started
      · rw [if_pos hc] at h
        refine ih { q with settled := q.settled + 1 } ?_ ?_ ?_ h
        · show q.settled + 1 ≤ q.started
          omega
        · show q.started ≤ q.settled + 1 + 1
          omega
        · show q.started ≤ q.submitted
          omega
      · rw [if_neg hc] at h
        cases h

theorem qrun_take (l : List QEvent) (q q2 : TurnQueue) (h : qrun q l = some q2)
    (i : Nat) : ∃ qi, qrun q (l.take i) = some qi := by
  have hsplit : l = l.take i ++ l.drop i := (List.take_append_drop i l).symm
  rw [hsplit, qrun_append] at h
  cases hq : qrun q (l.take i) with
  | some qi => exact ⟨qi, rfl⟩
  | none => rw [hq] at h; cases h

/-- C6 amended (turn serialization per Active Conversation): on any
realizable schedule of one conversation's promise queue, at every moment
the number of started turns exceeds the settled ones by at most one (turns
never interleave: turn `k + 1`'s prompt is written only after turn `k`'s
promise settled on its terminal event or failure), no turn settles before
it starts, and no turn starts before it is submitted.  The claim's full
"submitted concurrently" form is refuted by
`turn_serialization_claim_false`: two concurrent first `sendMessage` calls
race in `ensureConversation` and do not share a queue. -/
theorem turn_serialization (tr : List QEvent) (q2 : TurnQueue)
    (h : qrun initQueue tr = some q2) (i : Nat) :
    nStarts (tr.take i) ≤ nSettles (tr.take i) + 1 ∧
    nSettles (tr.take i) ≤ nStarts (tr.take i) ∧
    nStarts (tr.take i) ≤ nSubmits (tr.take i) := by
  obtain ⟨qi, hqi⟩ := qrun_take tr initQueue q2 h i
  have hc := qrun_counts (tr.take i) initQueue qi hqi
  have hv := qrun_inv (tr.take i) initQueue qi (by simp [initQueue])
    (by simp [initQueue]) (by simp [initQueue]) hqi
  simp only [initQueue, Nat.zero_add] at hc
  omega

/-- Witness for `turn_serialization`: two turns submitted up front, executed
one after the other. -/
theorem turn_serialization_witness :
    (qrun initQueue
      [QEvent.submit, QEvent.submit, QEvent.start, QEvent.settle,
        QEvent.start, QEvent.settle] =
      some { submitted := 2, started := 2, settled := 2 }) ∧
    (nStarts ([QEvent.submit, QEvent.submit, QEvent.start, QEvent.settle,
        QEvent.start, QEvent.settle].take 5) ≤
      nSettles ([QEvent.submit, QEvent.submit, QEvent.start, QEvent.settle,
        QEvent.start, QEvent.settle].take 5) + 1) :=
  ⟨by decide,
    (turn_serialization
      [QEvent.submit, QEvent.submit, QEvent.start, QEvent.settle,
        QEvent.start, QEvent.settle]
      { submitted := 2, started := 2, settled := 2 } (by decide) 5).1⟩

/-- Program counter of one `sendMessage` call for a conversation id with the
steps of `ensureConversation` that matter for the race: `entry` — about to
run the synchronous `this.active.get(conversationId)` check; `spawning` —
the check missed and the call is suspended across the awaits of
`spawnOperatorPi`/`get_state`/`set_model` before `this.active.set` runs;
`chained conv` — the call holds ActiveConversation `conv` and its turn is
chained on `conv`'s queue; `prompted conv` — `runTurn` began and wrote the
prompt line to `conv`'s bridge. -/
inductive CallPc where
  | entry
  | spawning
  | chained (conv : Nat)
  | prompted (conv : Nat)
  deriving Repr, DecidableEq

/-- Observable effect of one scheduler step of the race machine. -/
inductive RaceObs where
  | quiet
  | promptWritten (caller : Nat) (conv : Nat)
  deriving Repr, DecidableEq

/-- Joint state of two concurrent `sendMessage(conversationId, ...)` calls:
the `this.active` entry for the id (conversation objects labelled by spawn
order), the spawn counter, the set of conversations with an unsettled
running turn (`busy`), and each call's program counter. -/
structure RaceState where
  activeConv : Option Nat
  convCounter : Nat
  busy : List Nat
  pc1 : CallPc
  pc2 : CallPc
  deriving Repr, DecidableEq

/-- No live Active Conversation, both calls submitted. -/
def initRace : RaceState :=
  { activeConv := none, convCounter := 0, busy := [], pc1 := .entry, pc2 := .entry }

/-- Advance of one call, following `ensureConversation` and `sendMessage`:
at `entry` the call reuses a live registered conversation or, on a miss,
starts spawning; a spawn completes by installing its own fresh conversation
with `this.active.set` (overwriting any concurrent install) and returning
it; a chained turn starts — writing its prompt — as soon as its
conversation's queue is free. -/
structure AdvanceResult where
  activeConv : Option Nat
  convCounter : Nat
  busy : List Nat
  pc : CallPc
  obs : RaceObs
  deriving Repr, DecidableEq

def advance (caller : Nat) (active : Option Nat) (counter : Nat)
    (busy : List Nat) : CallPc → AdvanceResult
  | .entry =>
    match active with
    | some conv => ⟨active, counter, busy, .chained conv, .quiet⟩
    | none => ⟨active, counter, busy, .spawning, .quiet⟩
  | .spawning =>
    ⟨some (counter + 1), counter + 1, busy, .chained (counter + 1), .quiet⟩
  | .chained conv =>
    if conv ∈ busy then ⟨active, counter, busy, .chained conv, .quiet⟩
    else ⟨active, counter, busy ++ [conv], .prompted conv,
      .promptWritten caller conv⟩
  | .prompted conv => ⟨active, counter, busy, .prompted conv, .quiet⟩

/-- Which of the two calls the event loop advances. -/
inductive Caller where
  | one
  | two
  deriving Repr, DecidableEq

def raceStep (s : RaceState) : Caller → RaceState × RaceObs
  | .one =>
    let t := advance 1 s.activeConv s.convCounter s.busy s.pc1
    ({ activeConv := t.activeConv, convCounter := t.convCounter,
       busy := t.busy, pc1 := t.pc, pc2 := s.pc2 }, t.obs)
  | .two =>
    let t := advance 2 s.activeConv s.convCounter s.busy s.pc2
    ({ activeConv := t.activeConv, convCounter := t.convCounter,
       busy := t.busy, pc1 := s.pc1, pc2 := t.pc }, t.obs)

def raceRun (s : RaceState) : List Caller → RaceState × List RaceObs
  | [] => (s, [])
  | c :: cs =>
    let t := raceStep s c
    let u := raceRun t.1 cs
    (u.1, t.2 :: u.2)

/-- Counterexample to C6 as stated: turns T1 (caller 1) and T2 (caller 2)
submitted concurrently for the same conversation identity with no live
Active Conversation both miss the `this.active.get` check before either
install runs, each spawns its own bridge, and T2's prompt is written (to
conversation 2's bridge) while T1's turn is still unsettled — no terminal
event of T1 is ever observed in this schedule, and both turns are in
flight simultaneously (`busy = [1, 2]`).  The prompt commands are not
serialized behind one queue. -/
theorem turn_serialization_claim_false :
    raceRun initRace
        [Caller.one, Caller.two, Caller.one, Caller.two, Caller.one,
          Caller.two] =
      ({ activeConv := some 2, convCounter := 2, busy := [1, 2],
          pc1 := .prompted 1, pc2 := .prompted 2 },
        [RaceObs.quiet, RaceObs.quiet, RaceObs.quiet, RaceObs.quiet,
          RaceObs.promptWritten 1 1, RaceObs.promptWritten 2 2]) := by
  decide

end Operator

namespace Operator

/-- The `message.content` value of an operator RPC event as
`extractTextFromContent` sees it: a plain string, or an array of content
blocks (only the text of `type: "text"` blocks is kept). -/
inductive ContentV where
  | str (s : String)
  | blocks (texts : List String)
  deriving Repr, DecidableEq

/-- `extractTextFromContent` of the operator `SessionManager`: a string is
returned as is, an array contributes its text blocks joined with a newline,
anything else gives the empty string. -/
def extractTextFromContent : Option ContentV → String
  | some (.str s) => s
  | some (.blocks ts) => String.intercalate ("\n") ts
  | none => ""

/-- JS truthiness of `event.message?.content`: absent and the empty string
are falsy; an array — even an empty one — is truthy. -/
def contentTruthy : Option ContentV → Bool
  | some (.str s) => !(s == "")
  | some (.blocks _) => true
  | none => false

/-- The check `!role || role === "assistant"` of the `message_end` branch
(an absent or empty — falsy — role also passes). -/
def roleOkForEnd : Option String → Bool
  | none => true
  | some v => v == "" || v == "assistant"

/-- `String(event.toolName || "tool")`. -/
def jsToolName : Option String → String
  | some v => if v == "" then "tool" else v
  | none => "tool"

/-- The fields of an operator RPC event that `runTurn`'s `onEvent` handler
reads: `event.type`, `event.message?.role`, `event.message?.content` and
`event.toolName`. -/
structure OpEvent where
  etype : String
  role : Option String
  content : Option ContentV
  toolName : Option String
  deriving Repr, DecidableEq

/-- The local state of one `runTurn` call: the accumulated assistant text,
the `seenAssistantMessage` flag, the `finished` flag (here also covering
"the promise has settled and `cleanup()` detached the listeners", which in
the source accompanies every finalize/reject), and the collected tool call
names. -/
structure TurnState where
  assistantText : String
  seenAssistantMessage : Bool
  finished : Bool
  toolCalls : List String
  deriving Repr, DecidableEq

/-- `runTurn` before any event: empty text, nothing seen, not finished. -/
def initTurn : TurnState :=
  { assistantText := "", seenAssistantMessage := false, finished := false,
    toolCalls := [] }

/-- How one `runTurn` step settles (or not): `resolve text toolCalls` is the
`finalize()` path resolving the turn's promise with `assistantText.trim()`,
`reject msg` is a rejection (timeout or bridge exit), `noop` is everything
else. -/
inductive TurnAction where
  | noop
  | resolve (text : String) (toolCalls : List String)
  | reject (msg : String)
  deriving Repr, DecidableEq

/-- `nextText` of the `message_end` branch: the event's content if truthy,
else the accumulated `assistantText`. -/
def nextTextOf (s : TurnState) (e : OpEvent) : String :=
  if contentTruthy e.content then extractTextFromContent e.content
  else s.assistantText

/-- The `onEvent` handler of `SessionManager.runTurn`, translated branch by
branch: `message_start` (assistant) records the text and sets
`seenAssistantMessage`; `message_update` (assistant, after a start) updates
the text; a full `message` (assistant) finalizes unconditionally;
`message_end` (assistant or role-less, after a start) finalizes only when
the resulting text is non-empty after trimming; `tool_execution_start`
records the tool name; `agent_end` finalizes; everything else — including
`tool_execution_end`, whose rig-dispatch bookkeeping does not touch the
turn's completion — falls through.  Once finished, the listeners are
detached, so every event is a no-op. -/
def onEvent (s : TurnState) (e : OpEvent) : TurnState × TurnAction :=
  if s.finished then (s, .noop)
  else if e.etype = "message_start" ∧ e.role = some ("assistant") then
    ({ s with seenAssistantMessage := true,
              assistantText := extractTextFromContent e.content }, .noop)
  else if e.etype = "message_update" ∧ s.seenAssistantMessage = true ∧
      e.role = some ("assistant") then
    ({ s with assistantText := extractTextFromContent e.content }, .noop)
  else if e.etype = "message" ∧ e.role = some ("assistant") then
    ({ s with assistantText := extractTextFromContent e.content, finished := true },
      .resolve (RigTools.jsTrim (extractTextFromContent e.content)) s.toolCalls)
  else if e.etype = "message_end" ∧ s.seenAssistantMessage = true ∧
      roleOkForEnd e.role = true then
    if 0 < (RigTools.jsTrim (nextTextOf s e)).length then
      ({ s with assistantText := nextTextOf s e, finished := true },
        .resolve (RigTools.jsTrim (nextTextOf s e)) s.toolCalls)
    else (s, .noop)
  else if e.etype = "tool_execution_start" then
    ({ s with toolCalls := s.toolCalls ++ [jsToolName e.toolName] }, .noop)
  else if e.etype = "agent_end" then
    ({ s with finished := true },
      .resolve (RigTools.jsTrim s.assistantText) s.toolCalls)
  else (s, .noop)

/-- The fixed turn timeout of `runTurn`: `10 * 60_000` milliseconds. -/
def TURN_TIMEOUT_MS : Nat := 10 * 60000

/-- One turn together with its conversation's bridge liveness. -/
structure TurnCtx where
  turn : TurnState
  bridgeAlive : Bool
  deriving Repr, DecidableEq

/-- Inputs to a running turn: a bridge event, the 10-minute timer firing,
or the bridge process exiting. -/
inductive TurnInput where
  | ev (e : OpEvent)
  | timerFire
  | bridgeExit
  deriving Repr, DecidableEq

/-- One step of a running turn.  The timeout callback rejects the turn's
promise and detaches the listeners but does not touch the bridge — no kill
is issued and `bridgeAlive` is untouched; a timer whose turn already
finalized was cleared by `cleanup()` and cannot fire.  The bridge exit
handler rejects the turn if it is still unsettled. -/
def turnStep (c : TurnCtx) : TurnInput → TurnCtx × TurnAction
  | .ev e =>
    let t := onEvent c.turn e
    ({ c with turn := t.1 }, t.2)
  | .timerFire =>
    if c.turn.finished then (c, .noop)
    else ({ c with turn := { c.turn with finished := true } },
      .reject ("Timed out waiting for operator turn to finish"))
  | .bridgeExit =>
    if c.turn.finished then ({ c with bridgeAlive := false }, .noop)
    else ({ c with bridgeAlive := false,
                   turn := { c.turn with finished := true } },
      .reject ("Operator session exited while handling message"))

/-- Counterexample to C7 as stated: the turn-completion triggers are not
"an assistant message with non-empty text, or an explicit end-of-turn
event".  (1) A bare `message` event carrying an assistant message with
empty text finalizes the turn (resolving it with the empty string), and
(2) a `message_end` event carrying non-empty assistant text does not
complete the turn when no assistant `message_start` was seen. -/
theorem turn_completion_claim_false :
    ((onEvent initTurn
        ⟨"message", some ("assistant"), some (ContentV.str ("")), none⟩).2 =
      TurnAction.resolve ("") []) ∧
    ((onEvent initTurn
        ⟨"message_end", some ("assistant"), some (ContentV.str ("hello")), none⟩).2 =
      TurnAction.noop) := by
  decide

/-- C7 amended: a turn completes exactly on (a) an assistant `message`
event — regardless of its text, empty included —, (b) a `message_end`
event for an assistant (or role-less) message after an assistant
`message_start` has been seen and with non-empty trimmed text, or (c) an
`agent_end` event; otherwise the fixed `10 * 60_000` ms timeout rejects the
turn's promise, and the timeout leaves the bridge process alone — no kill
is issued and its liveness is unchanged. -/
theorem turn_completion_triggers :
    (∀ (s : TurnState) (e : OpEvent), s.finished = false →
      e.etype = "message" → e.role = some ("assistant") →
      (onEvent s e).2 =
        TurnAction.resolve (RigTools.jsTrim (extractTextFromContent e.content))
          s.toolCalls) ∧
    (∀ (s : TurnState) (e : OpEvent), s.finished = false →
      e.etype = "message_end" → s.seenAssistantMessage = true →
      roleOkForEnd e.role = true →
      0 < (RigTools.jsTrim (nextTextOf s e)).length →
      (onEvent s e).2 =
        TurnAction.resolve (RigTools.jsTrim (nextTextOf s e)) s.toolCalls) ∧
    (∀ (s : TurnState) (e : OpEvent), s.finished = false →
      e.etype = "agent_end" →
      (onEvent s e).2 =
        TurnAction.resolve (RigTools.jsTrim s.assistantText) s.toolCalls) ∧
    (∀ (s : TurnState) (e : OpEvent) (t : String) (tc : List String),
      s.finished = false → (onEvent s e).2 = TurnAction.resolve t tc →
      (e.etype = "message" ∧ e.role = some ("assistant")) ∨
      (e.etype = "message_end" ∧ s.seenAssistantMessage = true ∧
        roleOkForEnd e.role = true ∧
        0 < (RigTools.jsTrim (nextTextOf s e)).length) ∨
      e.etype = "agent_end") ∧
    (∀ c : TurnCtx, c.turn.finished = false →
      (turnStep c TurnInput.timerFire).2 =
        TurnAction.reject ("Timed out waiting for operator turn to finish") ∧
      (turnStep c TurnInput.timerFire).1.bridgeAlive = c.bridgeAlive) ∧
    TURN_TIMEOUT_MS = 10 * 60000 := by
  refine ⟨?_, ?_, ?_, ?_, ?_, rfl⟩
  · intro s e hn he hr
    simp [onEvent, hn, he, hr]
  · intro s e hn he hseen hrole hlen
    simp [onEvent, hn, he, hseen, hrole, hlen]
  · intro s e hn he
    simp [onEvent, hn, he]
  · intro s e t tc hn hres
    unfold onEvent at hres
    rw [if_neg (by rw [hn]; exact Bool.false_ne_true)] at hres
    by_cases h1 : e.etype = "message_start" ∧ e.role = some ("assistant")
    · rw [if_pos h1] at hres
      simp at hres
    · rw [if_neg h1] at hres
      by_cases h2 : e.etype = "message_update" ∧ s.seenAssistantMessage = true ∧
          e.role = some ("assistant")
      · rw [if_pos h2] at hres
        simp at hres
      · rw [if_neg h2] at hres
        by_cases h3 : e.etype = "message" ∧ e.role = some ("assistant")
        · exact Or.inl h3
        · rw [if_neg h3] at hres
          by_cases h4 : e.etype = "message_end" ∧ s.seenAssistantMessage = true ∧
              roleOkForEnd e.role = true
          · rw [if_pos h4] at hres
            by_cases hlen : 0 < (RigTools.jsTrim (nextTextOf s e)).length
            · exact Or.inr (Or.inl ⟨h4.1, h4.2.1, h4.2.2, hlen⟩)
            · rw [if_neg hlen] at hres
              simp at hres
          · rw [if_neg h4] at hres
            by_cases h5 : e.etype = "tool_execution_start"
            · rw [if_pos h5] at hres
              simp at hres
            · rw [if_neg h5] at hres
              by_cases h6 : e.etype = "agent_end"
              · exact Or.inr (Or.inr h6)
              · rw [if_neg h6] at hres
                simp at hres
  · intro c hcn
    constructor
    · simp [turnStep, hcn]
    · simp [turnStep, hcn]

/-- Witness for `turn_completion_triggers`: a fresh turn completing on an
assistant `message` event with text. -/
theorem turn_completion_triggers_witness :
    (initTurn.finished = false) ∧
    ((onEvent initTurn
        ⟨"message", some ("assistant"), some (ContentV.str ("hi")), none⟩).2 =
      TurnAction.resolve
        (RigTools.jsTrim (extractTextFromContent (some (ContentV.str ("hi")))))
        initTurn.toolCalls) :=
  ⟨rfl, turn_completion_triggers.1 initTurn
    ⟨"message", some ("assistant"), some (ContentV.str ("hi")), none⟩
    rfl rfl rfl⟩

end Operator

namespace Operator

/-- The fixed sweep interval of the `SessionManager` constructor's
`setInterval(() => void this.reapIdle(), 30_000)`. -/
def IDLE_SWEEP_INTERVAL_MS : Nat := 30000

/-- An in-memory `ActiveConversation` as `reapIdle`/`persistConversation`
see it: its identity, the session/model pointers, and the last-activity
timestamp.  The bridge reference is represented by the conversation id of
the bridge that `killPi` receives. -/
structure ActiveConv where
  conversationId : String
  sessionFile : Option String
  sessionId : Option String
  modelProvider : Option String
  modelId : Option String
  thinkingLevel : Option String
  lastActiveAt : Nat
  deriving Repr, DecidableEq

/-- A persisted Conversation Record as written by `persistConversation`. -/
structure ConvRecord where
  conversationId : String
  sessionFile : Option String
  sessionId : Option String
  modelProvider : Option String
  modelId : Option String
  thinkingLevel : Option String
  updatedAt : Nat
  deriving Repr, DecidableEq

/-- `persistConversation`: flush the conversation's current pointers into
its record, stamping `updatedAt` with the current time. -/
def recordOf (c : ActiveConv) (now : Nat) : ConvRecord :=
  { conversationId := c.conversationId, sessionFile := c.sessionFile,
    sessionId := c.sessionId, modelProvider := c.modelProvider,
    modelId := c.modelId, thinkingLevel := c.thinkingLevel, updatedAt := now }

/-- The manager state `reapIdle` touches: the `active` map (in insertion
order), the persisted `store.conversations`, and the configured
`sessionTimeoutSeconds`. -/
structure MgrState where
  active : List ActiveConv
  conversations : List (String × ConvRecord)
  sessionTimeoutSeconds : Nat
  deriving Repr, DecidableEq

/-- The reap condition: `conversation.lastActiveAt >= cutoff` keeps the
conversation, where `cutoff = now - sessionTimeoutSeconds * 1000`; the
subtraction is over JS numbers, so it is carried out in `Int`. -/
def isIdleAt (timeoutSeconds now : Nat) (c : ActiveConv) : Bool :=
  decide ((c.lastActiveAt : Int) < (now : Int) - (timeoutSeconds : Int) * 1000)

/-- `SessionManager.reapIdle`, run at time `now`: every active conversation
whose `lastActiveAt` is older than the cutoff is killed (`killPi`), removed
from `active`, and persisted via `persistConversation`; the rest are left
untouched.  The returned list is the killed conversations' ids, in
iteration order. -/
def reapIdle (st : MgrState) (now : Nat) : MgrState × List String :=
  let stale := st.active.filter (isIdleAt st.sessionTimeoutSeconds now)
  ({ st with
      active := st.active.filter (fun c => !(isIdleAt st.sessionTimeoutSeconds now c)),
      conversations := stale.foldl
        (fun m c => JsMap.set m c.conversationId (recordOf c now))
        st.conversations },
    stale.map (fun c => c.conversationId))

theorem get_foldl_set_of_not_mem (L : List ActiveConv)
    (m : List (String × ConvRecord)) (k : String) (now : Nat)
    (h : ∀ a ∈ L, a.conversationId ≠ k) :
    JsMap.get
      (L.foldl (fun acc a => JsMap.set acc a.conversationId (recordOf a now)) m) k =
    JsMap.get m k := by
  induction L generalizing m with
  | nil => rfl
  | cons a rest ih =>
    simp only [List.foldl_cons]
    rw [ih (JsMap.set m a.conversationId (recordOf a now))
      (fun b hb => h b (by simp [hb]))]
    exact JsMap.get_set_ne m a.conversationId k (recordOf a now)
      (fun hk => h a (by simp) hk.symm)

theorem get_foldl_set_of_mem (L : List ActiveConv)
    (m : List (String × ConvRecord)) (c : ActiveConv) (now : Nat)
    (hmem : c ∈ L) (hnd : (L.map (fun a => a.conversationId)).Nodup) :
    JsMap.get
      (L.foldl (fun acc a => JsMap.set acc a.conversationId (recordOf a now)) m)
      c.conversationId = some (recordOf c now) := by
  induction L generalizing m with
  | nil => cases hmem
  | cons a rest ih =>
    simp only [List.map_cons, List.nodup_cons] at hnd
    rcases List.mem_cons.1 hmem with h1 | h1
    · subst h1
      simp only [List.foldl_cons]
      rw [get_foldl_set_of_not_mem rest
        (JsMap.set m c.conversationId (recordOf c now)) c.conversationId now
        (fun b hb hbk => hnd.1 (hbk ▸ List.mem_map_of_mem _ hb))]
      exact JsMap.get_set_self m c.conversationId (recordOf c now)
    · simp only [List.foldl_cons]
      exact ih (JsMap.set m a.conversationId (recordOf a now)) h1 hnd.2

/-- C9 (idle reap): for each active conversation, the sweep — scheduled on
the fixed 30-second interval — kills and evicts it exactly when its
last-activity timestamp is older than `now - sessionTimeoutSeconds * 1000`,
flushing its session-file, session-id, model and thinking-level pointers
into the persisted Conversation Record; a conversation with activity within
the threshold stays active, is not killed, and its stored record is left
untouched. -/
theorem idle_reap_sweep (st : MgrState) (now : Nat) (c : ActiveConv)
    (hmem : c ∈ st.active)
    (hkeys : (st.active.map (fun a => a.conversationId)).Nodup) :
    ((isIdleAt st.sessionTimeoutSeconds now c = true →
        c ∉ (reapIdle st now).1.active ∧
        c.conversationId ∈ (reapIdle st now).2 ∧
        JsMap.get (reapIdle st now).1.conversations c.conversationId =
          some (recordOf c now)) ∧
      (isIdleAt st.sessionTimeoutSeconds now c = false →
        c ∈ (reapIdle st now).1.active ∧
        c.conversationId ∉ (reapIdle st now).2 ∧
        JsMap.get (reapIdle st now).1.conversations c.conversationId =
          JsMap.get st.conversations c.conversationId)) ∧
    IDLE_SWEEP_INTERVAL_MS = 30000 := by
  have hinj := List.inj_on_of_nodup_map hkeys
  have hstale : ((st.active.filter (isIdleAt st.sessionTimeoutSeconds now)).map
      (fun a => a.conversationId)).Nodup :=
    hkeys.sublist (List.Sublist.map _ (List.filter_sublist _))
  refine ⟨⟨?_, ?_⟩, rfl⟩
  · intro hidle
    simp only [reapIdle]
    refine ⟨?_, ?_, ?_⟩
    · intro hc
      simp only [List.mem_filter] at hc
      rw [hidle] at hc
      simp at hc
    · exact List.mem_map_of_mem _ (List.mem_filter.2 ⟨hmem, hidle⟩)
    · exact get_foldl_set_of_mem _ st.conversations c now
        (List.mem_filter.2 ⟨hmem, hidle⟩) hstale
  · intro hfresh
    simp only [reapIdle]
    refine ⟨?_, ?_, ?_⟩
    · exact List.mem_filter.2 ⟨hmem, by rw [hfresh]; rfl⟩
    · intro hc
      obtain ⟨a, ha, hak⟩ := List.mem_map.1 hc
      have haa : a ∈ st.active := (List.mem_filter.1 ha).1
      have hae : a = c := hinj haa hmem hak
      subst hae
      have hcontra := (List.mem_filter.1 ha).2
      rw [hfresh] at hcontra
      cases hcontra
    · apply get_foldl_set_of_not_mem
      intro a ha hak
      have haa : a ∈ st.active := (List.mem_filter.1 ha).1
      have hae : a = c := hinj haa hmem hak
      subst hae
      have hcontra := (List.mem_filter.1 ha).2
      rw [hfresh] at hcontra
      cases hcontra

/-- Concrete idle conversation for the `idle_reap_sweep` witness. -/
def reapConvA : ActiveConv :=
  { conversationId := ("chat1"), sessionFile := some ("s1.json"),
    sessionId := some ("sid1"), modelProvider := some ("p"),
    modelId := some ("m"), thinkingLevel := some ("high"), lastActiveAt := 500 }

/-- Concrete fresh conversation for the `idle_reap_sweep` witness. -/
def reapConvB : ActiveConv :=
  { conversationId := ("chat2"), sessionFile := none, sessionId := none,
    modelProvider := none, modelId := none, thinkingLevel := none,
    lastActiveAt := 1999999 }

/-- Concrete manager state for the `idle_reap_sweep` witness. -/
def reapStateW : MgrState :=
  { active := [reapConvA, reapConvB], conversations := [],
    sessionTimeoutSeconds := 900 }

/-- Witness for `idle_reap_sweep`: two conversations, one idle past the
threshold and one active, swept at `now = 2000000`. -/
theorem idle_reap_sweep_witness :
    (reapConvA ∈ reapStateW.active) ∧
    ((reapStateW.active.map (fun a => a.conversationId)).Nodup) ∧
    (isIdleAt reapStateW.sessionTimeoutSeconds 2000000 reapConvA = true →
      reapConvA ∉ (reapIdle reapStateW 2000000).1.active ∧
      reapConvA.conversationId ∈ (reapIdle reapStateW 2000000).2 ∧
      JsMap.get (reapIdle reapStateW 2000000).1.conversations
        reapConvA.conversationId = some (recordOf reapConvA 2000000)) :=
  ⟨by decide, by decide,
    (idle_reap_sweep reapStateW 2000000 reapConvA (by decide) (by decide)).1.1⟩

end Operator
